import Mathlib

/-!
Verification of the envelope and content-cipher module of a JavaScript
data-sharing library.  The module under study exposes an asymmetric envelope
codec (`encrypt_object` / `decrypt_object` over a delimited text wire format,
`encrypt_buffer` / `decrypt_buffer` over a length-prefixed binary wire format)
built on an ECDH-AEAD primitive, and a content-cipher layer (`make_content_key`,
`make_content_cipher_stream`, `crypto_content_transform`, `encrypt_content`,
`decrypt_content`) built on an AES-256-CBC block-cipher transform.

The JavaScript functions are shallowly embedded here: byte buffers become
`List Nat` (each element a byte value below 256), JavaScript strings become
`String`, fallible computations return `Except JsError`.  Platform facilities
(Node `Buffer` base64/hex codecs, `createCipheriv`, the secure random source)
are embedded by their documented behaviour; the ECDH-AEAD primitive, whose
implementation lives outside the studied sources, is kept abstract and is only
assumed to satisfy the round-trip contract stated for it.
-/

set_option maxHeartbeats 1000000

/-- Errors surfaced by the embedded JavaScript code, named after the
specification's taxonomy.  `typeError` stands for a JavaScript `TypeError`
(e.g. calling a missing method or `Buffer.from(undefined)`); `keyFormatError`
for the construction-time key/IV length errors of `createCipheriv`;
`unknownCipherError` for an unrecognised algorithm name; `decryptionError` for
an integrity/padding failure during decryption; `serializationError` for a
JSON parse failure. -/
inductive JsError where
  | typeError : JsError
  | keyFormatError : JsError
  | unknownCipherError : JsError
  | decryptionError : JsError
  | serializationError : JsError
deriving DecidableEq

/-! ## Base64 codec

Embeds `buf.toString('base64')` and `Buffer.from(s, 'base64')` of Node.
Encoding maps each 3-byte group to 4 alphabet characters and pads with `=`;
decoding is lenient as in Node: characters outside the alphabet (including
`=`) are skipped, then complete and trailing digit groups are converted. -/

/-- The base64 alphabet character for a 6-bit value. -/
def b64Char (n : Nat) : Char :=
  if n < 26 then Char.ofNat (65 + n)
  else if n < 52 then Char.ofNat (97 + (n - 26))
  else if n < 62 then Char.ofNat (48 + (n - 52))
  else if n = 62 then '+'
  else '/'

/-- The 6-bit value of a base64 alphabet character, `none` outside the
alphabet. -/
def b64Digit (c : Char) : Option Nat :=
  if 'A' ≤ c ∧ c ≤ 'Z' then some (c.toNat - 65)
  else if 'a' ≤ c ∧ c ≤ 'z' then some (c.toNat - 97 + 26)
  else if '0' ≤ c ∧ c ≤ '9' then some (c.toNat - 48 + 52)
  else if c = '+' then some 62
  else if c = '/' then some 63
  else none

/-- Base64 encoding of a byte list, as a character list. -/
def base64EncodeChars : List Nat → List Char
  | b0 :: b1 :: b2 :: rest =>
      b64Char (b0 / 4) :: b64Char (b0 % 4 * 16 + b1 / 16) ::
      b64Char (b1 % 16 * 4 + b2 / 64) :: b64Char (b2 % 64) ::
      base64EncodeChars rest
  | [b0, b1] => [b64Char (b0 / 4), b64Char (b0 % 4 * 16 + b1 / 16), b64Char (b1 % 16 * 4), '=']
  | [b0] => [b64Char (b0 / 4), b64Char (b0 % 4 * 16), '=', '=']
  | [] => []

/-- `buf.toString('base64')`. -/
def base64Encode (bs : List Nat) : String :=
  String.mk (base64EncodeChars bs)

/-- Recover bytes from a list of 6-bit values (complete 4-groups plus a
trailing 2- or 3-group; a lone trailing digit yields nothing, as in Node). -/
def base64DecodeDigits : List Nat → List Nat
  | d0 :: d1 :: d2 :: d3 :: rest =>
      (d0 * 4 + d1 / 16) :: (d1 % 16 * 16 + d2 / 4) :: (d2 % 4 * 64 + d3) ::
      base64DecodeDigits rest
  | [d0, d1, d2] => [d0 * 4 + d1 / 16, d1 % 16 * 16 + d2 / 4]
  | [d0, d1] => [d0 * 4 + d1 / 16]
  | _ => []

/-- `Buffer.from(s, 'base64')` on a character list: skip non-alphabet
characters, then convert digit groups. -/
def base64DecodeChars (cs : List Char) : List Nat :=
  base64DecodeDigits (cs.filterMap b64Digit)

/-- `Buffer.from(s, 'base64')`. -/
def base64Decode (s : String) : List Nat :=
  base64DecodeChars s.data

/-! ## Hex codec

Embeds `buf.toString('hex')` (lowercase digits) and `Buffer.from(s, 'hex')`
(Node stops at the first character pair that is not two hex digits, or at a
lone trailing character, without raising). -/

/-- Lowercase hex digit for a 4-bit value. -/
def hexChar (n : Nat) : Char :=
  if n < 10 then Char.ofNat (48 + n) else Char.ofNat (97 + (n - 10))

/-- The 4-bit value of a hex digit (either case), `none` otherwise. -/
def hexDigit (c : Char) : Option Nat :=
  if '0' ≤ c ∧ c ≤ '9' then some (c.toNat - 48)
  else if 'a' ≤ c ∧ c ≤ 'f' then some (c.toNat - 97 + 10)
  else if 'A' ≤ c ∧ c ≤ 'F' then some (c.toNat - 65 + 10)
  else none

/-- Hex encoding of a byte list, as a character list. -/
def hexOfBytesChars : List Nat → List Char
  | [] => []
  | b :: rest => hexChar (b / 16) :: hexChar (b % 16) :: hexOfBytesChars rest

/-- `buf.toString('hex')`. -/
def hexOfBytes (bs : List Nat) : String :=
  String.mk (hexOfBytesChars bs)

/-- `Buffer.from(s, 'hex')` on a character list. -/
def bytesOfHexChars : List Char → List Nat
  | c1 :: c2 :: rest =>
      match hexDigit c1, hexDigit c2 with
      | some h, some l => (h * 16 + l) :: bytesOfHexChars rest
      | _, _ => []
  | _ => []

/-- `Buffer.from(s, 'hex')`. -/
def bytesOfHex (s : String) : List Nat :=
  bytesOfHexChars s.data

/-! ## JavaScript string split

Embeds `str.split(':')`; the limit form `str.split(':', 2)` is `List.take 2`
of this full split, which is exactly the JavaScript semantics (the limit
truncates the result array, it does not change where segments end). -/

/-- Full split of a character list on the separator `:`. -/
def splitOnColon : List Char → List (List Char)
  | [] => [[]]
  | c :: rest =>
      if c = ':' then [] :: splitOnColon rest
      else
        match splitOnColon rest with
        | seg :: segs => (c :: seg) :: segs
        | [] => [[c]]

/-! ## The ECDH-AEAD primitive -/

/-- Modelled from the spec: the ECDH-AEAD primitive (`Aes.encrypt_with_checksum`
and `Aes.decrypt_with_checksum` of the repository's `ecc` module, whose code is
not among the studied sources).  Per the spec it derives a shared secret from
(own private key, peer public key), mixes in a caller-supplied nonce string,
and produces / consumes a keyed, integrity-checked ciphertext; decryption fails
with a detectable error when the derived key is wrong or the ciphertext was
altered.  Keys are opaque handles (`Nat`); the functions stay abstract and
theorems assume only the contract the spec states. -/
structure EcdhAead where
  encrypt_with_checksum : Nat → Nat → String → List Nat → List Nat
  decrypt_with_checksum : Nat → Nat → String → List Nat → Except JsError (List Nat)

/-! ## Asymmetric envelope codec (text and binary wire formats) -/

/-- `encrypt_object(obj, subject_private_key, operator_public_key)`:
base64-encode a fresh random nonce (`nonceBytes`, supplied by the platform's
secure random source as 32 bytes), AEAD-encrypt the UTF-8 bytes of the JSON
serialization of `obj`, and return the text envelope
`nonce + ":" + base64(ciphertext)`.  The JSON serializer `stringify` and the
UTF-8 encoder `utf8enc` are the platform's, kept as parameters. -/
def encrypt_object {Obj : Type} (prim : EcdhAead) (stringify : Obj → String)
    (utf8enc : String → List Nat) (obj : Obj)
    (subject_private_key operator_public_key : Nat) (nonceBytes : List Nat) : String :=
  let nonce := base64Encode nonceBytes
  let cipherbuf := prim.encrypt_with_checksum subject_private_key operator_public_key nonce
    (utf8enc (stringify obj))
  nonce ++ ":" ++ base64Encode cipherbuf

/-- The `const parts = str.split(':', 2)` line of `decrypt_object`: the first
two segments of the full colon split. -/
def decrypt_object_parts (str : String) : List (List Char) :=
  (splitOnColon str.data).take 2

/-- `decrypt_object(str, subject_public_key, operator_private_key)`: split the
envelope with `str.split(':', 2)`, base64-decode the second segment, feed nonce
and ciphertext to the AEAD primitive with the keys in complementary roles, and
JSON-parse the UTF-8 decoding of the plaintext.  When the split yields no
second segment, `Buffer.from(parts[1], 'base64')` receives `undefined` and
throws a `TypeError` before the primitive is reached. -/
def decrypt_object {Obj : Type} (prim : EcdhAead) (jsonParse : String → Except JsError Obj)
    (utf8dec : List Nat → String) (str : String)
    (subject_public_key operator_private_key : Nat) : Except JsError Obj :=
  match decrypt_object_parts str with
  | p0 :: p1 :: _ => do
      let plainbuf ← prim.decrypt_with_checksum operator_private_key subject_public_key
        (String.mk p0) (base64DecodeChars p1)
      jsonParse (utf8dec plainbuf)
  | _ => .error .typeError

/-- `encrypt_buffer(buf, subject_private_key, operator_public_key)`:
AEAD-encrypt `buf` under the base64 encoding of a fresh 32-byte nonce and
return `Buffer.concat([Buffer.from([noncebuf.length]), noncebuf, cipherbuf])`
(the length byte is truncated to 8 bits by `Buffer.from`, as `u8`). -/
def encrypt_buffer (prim : EcdhAead) (buf : List Nat)
    (subject_private_key operator_public_key : Nat) (nonceBytes : List Nat) : List Nat :=
  let cipherbuf := prim.encrypt_with_checksum subject_private_key operator_public_key
    (base64Encode nonceBytes) buf
  List.flatten [[nonceBytes.length % 256], nonceBytes, cipherbuf]

/-- The slicing lines of `decrypt_buffer`:
`noncelen = buf.slice(0, 1)[0]`, `noncebuf = buf.slice(1, 1 + noncelen)`,
`cipherbuf = buf.slice(1 + noncelen)`.  `Buffer.slice` clamps out-of-range
indices, so the result is total; on the empty buffer `noncelen` is
`undefined` and both slices come out empty, which `headD 0` reproduces. -/
def decrypt_buffer_parts (buf : List Nat) : List Nat × List Nat :=
  let noncelen := buf.headD 0
  ((buf.drop 1).take noncelen, buf.drop (1 + noncelen))

/-- `decrypt_buffer(buf, subject_public_key, operator_private_key)`: slice off
the length-prefixed nonce, re-encode it to base64, and hand nonce and
ciphertext to the AEAD primitive with the keys in complementary roles. -/
def decrypt_buffer (prim : EcdhAead) (buf : List Nat)
    (subject_public_key operator_private_key : Nat) : Except JsError (List Nat) :=
  let parts := decrypt_buffer_parts buf
  prim.decrypt_with_checksum operator_private_key subject_public_key
    (base64Encode parts.1) parts.2

/-! ## Content encryption settings and content keys -/

def CONTENT_CIPHER_ALGORITHM : String := "aes-256-cbc"

def CONTENT_CIPHER_ALGORITHM_KEY_SIZE : Nat := 32

def CONTENT_CIPHER_ALGORITHM_IV_SIZE : Nat := 16

def CONTENT_CIPHER_ALGORITHM_NOENCRYPT : String := "noencrypt"

/-- The content-key record `{ algo, key, iv }`; `none` embeds JavaScript
`null`. -/
structure ContentKey where
  algo : String
  key : Option String
  iv : Option String
deriving DecidableEq

/-- `make_content_key()`: the default algorithm with hex-encoded fresh random
key and IV.  `randKey` and `randIv` stand for `randomBytes(32)` and
`randomBytes(16)` of the platform's secure random source. -/
def make_content_key (randKey randIv : List Nat) : ContentKey :=
  { algo := CONTENT_CIPHER_ALGORITHM
    key := if CONTENT_CIPHER_ALGORITHM_KEY_SIZE > 0 then some (hexOfBytes randKey) else none
    iv := if CONTENT_CIPHER_ALGORITHM_IV_SIZE > 0 then some (hexOfBytes randIv) else none }

/-- `make_content_key_noencrypt()`: the no-encryption sentinel. -/
def make_content_key_noencrypt : ContentKey :=
  { algo := CONTENT_CIPHER_ALGORITHM_NOENCRYPT, key := none, iv := none }

/-! ## AES-256-CBC transform

`createCipheriv('aes-256-cbc', key, iv)` followed by one `update` over the
whole buffer and a `final` is CBC mode with PKCS#7 padding over the AES-256
block permutation; the decipher direction checks and strips the padding and
rejects ciphertexts that are empty or not block-aligned.  The AES block
permutation itself is external (OpenSSL); it is kept abstract as a
`BlockCipher` and theorems assume only that, for 16-byte blocks, decryption
inverts encryption and encryption preserves the block length. -/

/-- An abstract 16-byte block cipher: `enc key block` and `dec key block`. -/
structure BlockCipher where
  enc : List Nat → List Nat → List Nat
  dec : List Nat → List Nat → List Nat

/-- Bytewise xor of two equal-length byte lists. -/
def listXor (xs ys : List Nat) : List Nat :=
  List.zipWith Nat.xor xs ys

/-- Split a byte list into consecutive 16-byte chunks (the last chunk may be
shorter when the length is not a multiple of 16). -/
def chunk16 (l : List Nat) : List (List Nat) :=
  if h : l = [] then []
  else
    have : (l.drop 16).length < l.length := by
      cases l with
      | nil => exact absurd rfl h
      | cons a t => simp [List.length_drop]; omega
    l.take 16 :: chunk16 (l.drop 16)
termination_by l.length

/-- CBC encryption chaining over a list of plaintext blocks, starting from
the previous ciphertext block (initially the IV). -/
def cbcEncChain (bc : BlockCipher) (k : List Nat) (prev : List Nat) :
    List (List Nat) → List (List Nat)
  | [] => []
  | b :: rest =>
      let c := bc.enc k (listXor prev b)
      c :: cbcEncChain bc k c rest

/-- CBC decryption chaining over a list of ciphertext blocks. -/
def cbcDecChain (bc : BlockCipher) (k : List Nat) (prev : List Nat) :
    List (List Nat) → List (List Nat)
  | [] => []
  | c :: rest => listXor prev (bc.dec k c) :: cbcDecChain bc k c rest

/-- PKCS#7 padding: append `p` copies of `p`, `p = 16 - len % 16 ∈ [1, 16]`. -/
def pkcs7pad (bs : List Nat) : List Nat :=
  bs ++ List.replicate (16 - bs.length % 16) (16 - bs.length % 16)

/-- PKCS#7 unpadding as the decipher's `final` performs it: the last byte `p`
must lie in `[1, 16]` and the last `p` bytes must all equal `p`, otherwise the
decryption fails (`bad decrypt`). -/
def pkcs7unpad (bs : List Nat) : Except JsError (List Nat) :=
  match bs.getLast? with
  | none => .error .decryptionError
  | some p =>
      if 1 ≤ p ∧ p ≤ 16 ∧ ∀ x ∈ bs.drop (bs.length - p), x = p
      then .ok (bs.take (bs.length - p))
      else .error .decryptionError

/-- Whole-buffer AES-256-CBC encryption: pad, chunk, chain, concatenate. -/
def aes256cbc_encrypt (bc : BlockCipher) (k iv input : List Nat) : List Nat :=
  (cbcEncChain bc k iv (chunk16 (pkcs7pad input))).flatten

/-- Whole-buffer AES-256-CBC decryption: the ciphertext must be nonempty and
block-aligned (`wrong final block length` otherwise), then chain, concatenate
and strip the padding. -/
def aes256cbc_decrypt (bc : BlockCipher) (k iv input : List Nat) :
    Except JsError (List Nat) :=
  if 0 < input.length ∧ input.length % 16 = 0
  then pkcs7unpad (cbcDecChain bc k iv (chunk16 input)).flatten
  else .error .decryptionError

/-! ## Content transform streams -/

/-- The transform objects the content layer constructs: `new PassThrough()`
for the no-encryption sentinel, or the cipher/decipher object of
`createCipheriv` / `createDecipheriv` bound to resolved key and IV bytes. -/
inductive Transform where
  | passThrough : Transform
  | cipheriv : List Nat → List Nat → Transform
  | decipheriv : List Nat → List Nat → Transform
deriving DecidableEq

/-- `createCipheriv(algo, key, iv)` of Node restricted to the algorithms this
module can name: for `aes-256-cbc` the key must be exactly 32 bytes and the
IV present and exactly 16 bytes (`RangeError` / invalid-IV errors otherwise,
the spec's `KeyFormatError`), raised at construction time; any other name is
an unknown cipher. -/
def createCipheriv (algo : String) (keyBytes : List Nat) (ivBytes : Option (List Nat)) :
    Except JsError Transform :=
  if algo = "aes-256-cbc" then
    if keyBytes.length ≠ 32 then .error .keyFormatError
    else
      match ivBytes with
      | some iv => if iv.length ≠ 16 then .error .keyFormatError else .ok (.cipheriv keyBytes iv)
      | none => .error .keyFormatError
  else .error .unknownCipherError

/-- `createDecipheriv(algo, key, iv)`, with the same construction-time
validation as `createCipheriv`. -/
def createDecipheriv (algo : String) (keyBytes : List Nat) (ivBytes : Option (List Nat)) :
    Except JsError Transform :=
  if algo = "aes-256-cbc" then
    if keyBytes.length ≠ 32 then .error .keyFormatError
    else
      match ivBytes with
      | some iv => if iv.length ≠ 16 then .error .keyFormatError else .ok (.decipheriv keyBytes iv)
      | none => .error .keyFormatError
  else .error .unknownCipherError

/-- The `content_key.iv ? Buffer.from(content_key.iv, 'hex') : null` argument:
JavaScript's truthiness test sends both `null` and the empty string to
`null`. -/
def ivArgOf (iv : Option String) : Option (List Nat) :=
  match iv with
  | some s => if s = "" then none else some (bytesOfHex s)
  | none => none

/-- `make_content_cipher_stream(content_key)`: a `PassThrough` for the
no-encryption sentinel, otherwise `createCipheriv` on the hex-decoded key and
IV.  When `content_key.key` is `null`, `Buffer.from(null, 'hex')` throws a
`TypeError` before `createCipheriv` is reached. -/
def make_content_cipher_stream (content_key : ContentKey) : Except JsError Transform :=
  if content_key.algo = CONTENT_CIPHER_ALGORITHM_NOENCRYPT then .ok .passThrough
  else
    match content_key.key with
    | none => .error .typeError
    | some khex => createCipheriv content_key.algo (bytesOfHex khex) (ivArgOf content_key.iv)

/-- `make_content_decipher_stream(content_key)`: the decipher direction of
`make_content_cipher_stream`. -/
def make_content_decipher_stream (content_key : ContentKey) : Except JsError Transform :=
  if content_key.algo = CONTENT_CIPHER_ALGORITHM_NOENCRYPT then .ok .passThrough
  else
    match content_key.key with
    | none => .error .typeError
    | some khex => createDecipheriv content_key.algo (bytesOfHex khex) (ivArgOf content_key.iv)

/-- `crypto_content_transform(transform, input)`: `transform.update(input)`
concatenated with `transform.final()`.  A `stream.PassThrough` object has no
`update` (or `final`) method, so on that transform the very first call,
`transform.update(input)`, throws `TypeError: transform.update is not a
function`; on cipher/decipher objects the two calls amount to the whole-buffer
AES-256-CBC transform. -/
def crypto_content_transform (bc : BlockCipher) (transform : Transform) (input : List Nat) :
    Except JsError (List Nat) :=
  match transform with
  | .passThrough => .error .typeError
  | .cipheriv k iv => .ok (aes256cbc_encrypt bc k iv input)
  | .decipheriv k iv => aes256cbc_decrypt bc k iv input

/-- `encrypt_content(plain_content_buf, content_key)`. -/
def encrypt_content (bc : BlockCipher) (plain_content_buf : List Nat)
    (content_key : ContentKey) : Except JsError (List Nat) := do
  let cipher ← make_content_cipher_stream content_key
  crypto_content_transform bc cipher plain_content_buf

/-- `decrypt_content(cipher_content_buf, content_key)`. -/
def decrypt_content (bc : BlockCipher) (cipher_content_buf : List Nat)
    (content_key : ContentKey) : Except JsError (List Nat) := do
  let decipher ← make_content_decipher_stream content_key
  crypto_content_transform bc decipher cipher_content_buf

/-! ## Concrete instances used to exercise the theorems -/

/-- A concrete ECDH-AEAD instance used to exercise round-trip theorems: the
ciphertext is the plaintext itself, so the round-trip contract holds
definitionally. -/
def echoAead : EcdhAead :=
  { encrypt_with_checksum := fun _ _ _ m => m
    decrypt_with_checksum := fun _ _ _ c => .ok c }

/-- A concrete ECDH-AEAD instance whose encryption always emits the bytes
`AA BB CC` and whose decryption always reports an integrity failure; used to
exercise wire-format and error-propagation theorems. -/
def constAead : EcdhAead :=
  { encrypt_with_checksum := fun _ _ _ _ => [170, 187, 204]
    decrypt_with_checksum := fun _ _ _ _ => .error .decryptionError }

/-- A concrete block cipher (the identity permutation on blocks) satisfying
the 16-byte block contract; used to exercise the content-cipher theorems. -/
def idBlockCipher : BlockCipher :=
  { enc := fun _ blk => blk
    dec := fun _ blk => blk }

/-! ## Codec lemmas -/

/-- Decoding inverts the base64 alphabet map on 6-bit values. -/
theorem b64Digit_b64Char {n : Nat} (h : n < 64) : b64Digit (b64Char n) = some n := by
  have : ∀ m : Fin 64, b64Digit (b64Char m.val) = some m.val := by decide
  exact this ⟨n, h⟩

/-- No base64 alphabet character is the envelope separator `:`. -/
theorem b64Char_ne_colon {n : Nat} (h : n < 64) : b64Char n ≠ ':' := by
  have : ∀ m : Fin 64, b64Char m.val ≠ ':' := by decide
  exact this ⟨n, h⟩

/-- The padding character decodes to nothing. -/
theorem b64Digit_eq : b64Digit '=' = none := by decide

/-- Every character emitted by the base64 encoder of a byte list is either an
alphabet character of a 6-bit value or the padding `=`; in particular it is
never `:`. -/
theorem base64EncodeChars_ne_colon (bs : List Nat) (hb : ∀ b ∈ bs, b < 256) :
    ∀ c ∈ base64EncodeChars bs, c ≠ ':' := by
  induction bs using base64EncodeChars.induct with
  | case1 b0 b1 b2 rest ih =>
      have h0 : b0 < 256 := hb b0 (by simp)
      have h1 : b1 < 256 := hb b1 (by simp)
      have h2 : b2 < 256 := hb b2 (by simp)
      intro c hc
      simp only [base64EncodeChars, List.mem_cons] at hc
      rcases hc with h | h | h | h | h
      · exact h ▸ b64Char_ne_colon (by omega)
      · exact h ▸ b64Char_ne_colon (by omega)
      · exact h ▸ b64Char_ne_colon (by omega)
      · exact h ▸ b64Char_ne_colon (by omega)
      · exact ih (fun b hbm => hb b (by simp [hbm])) c h
  | case2 b0 b1 =>
      have h0 : b0 < 256 := hb b0 (by simp)
      have h1 : b1 < 256 := hb b1 (by simp)
      intro c hc
      simp only [base64EncodeChars, List.mem_cons] at hc
      rcases hc with h | h | h | h | h
      · exact h ▸ b64Char_ne_colon (by omega)
      · exact h ▸ b64Char_ne_colon (by omega)
      · exact h ▸ b64Char_ne_colon (by omega)
      · subst h; decide
      · simp at h
  | case3 b0 =>
      have h0 : b0 < 256 := hb b0 (by simp)
      intro c hc
      simp only [base64EncodeChars, List.mem_cons] at hc
      rcases hc with h | h | h | h | h
      · exact h ▸ b64Char_ne_colon (by omega)
      · exact h ▸ b64Char_ne_colon (by omega)
      · subst h; decide
      · subst h; decide
      · simp at h
  | case4 =>
      intro c hc
      simp [base64EncodeChars] at hc

/-- Base64 decoding inverts base64 encoding on byte lists. -/
theorem base64_roundtrip (bs : List Nat) (hb : ∀ b ∈ bs, b < 256) :
    base64DecodeChars (base64EncodeChars bs) = bs := by
  unfold base64DecodeChars
  induction bs using base64EncodeChars.induct with
  | case1 b0 b1 b2 rest ih =>
      have h0 : b0 < 256 := hb b0 (by simp)
      have h1 : b1 < 256 := hb b1 (by simp)
      have h2 : b2 < 256 := hb b2 (by simp)
      have ih' := ih (fun b hbm => hb b (by simp [hbm]))
      simp only [base64EncodeChars, List.filterMap_cons,
        b64Digit_b64Char (show b0 / 4 < 64 by omega),
        b64Digit_b64Char (show b0 % 4 * 16 + b1 / 16 < 64 by omega),
        b64Digit_b64Char (show b1 % 16 * 4 + b2 / 64 < 64 by omega),
        b64Digit_b64Char (show b2 % 64 < 64 by omega)] at *
      simp only [base64DecodeDigits]
      rw [ih']
      congr 1
      · omega
      congr 1
      · omega
      congr 1
      · omega
  | case2 b0 b1 =>
      have h0 : b0 < 256 := hb b0 (by simp)
      have h1 : b1 < 256 := hb b1 (by simp)
      simp only [base64EncodeChars, List.filterMap_cons,
        b64Digit_b64Char (show b0 / 4 < 64 by omega),
        b64Digit_b64Char (show b0 % 4 * 16 + b1 / 16 < 64 by omega),
        b64Digit_b64Char (show b1 % 16 * 4 < 64 by omega), b64Digit_eq]
      simp only [List.filterMap_nil, base64DecodeDigits]
      congr 1
      · omega
      congr 1
      · omega
  | case3 b0 =>
      have h0 : b0 < 256 := hb b0 (by simp)
      simp only [base64EncodeChars, List.filterMap_cons,
        b64Digit_b64Char (show b0 / 4 < 64 by omega),
        b64Digit_b64Char (show b0 % 4 * 16 < 64 by omega), b64Digit_eq]
      simp only [List.filterMap_nil, base64DecodeDigits]
      congr 1
      omega
  | case4 => simp [base64EncodeChars, base64DecodeDigits]

/-- Decoding inverts the hex digit map on 4-bit values. -/
theorem hexDigit_hexChar {n : Nat} (h : n < 16) : hexDigit (hexChar n) = some n := by
  have : ∀ m : Fin 16, hexDigit (hexChar m.val) = some m.val := by decide
  exact this ⟨n, h⟩

/-- Hex decoding inverts hex encoding on byte lists. -/
theorem hex_roundtrip (bs : List Nat) (hb : ∀ b ∈ bs, b < 256) :
    bytesOfHexChars (hexOfBytesChars bs) = bs := by
  induction bs with
  | nil => simp [hexOfBytesChars, bytesOfHexChars]
  | cons b rest ih =>
      have hb0 : b < 256 := hb b (by simp)
      simp only [hexOfBytesChars, bytesOfHexChars,
        hexDigit_hexChar (show b / 16 < 16 by omega),
        hexDigit_hexChar (show b % 16 < 16 by omega)]
      rw [ih (fun x hx => hb x (by simp [hx]))]
      congr 1
      omega

/-- `Buffer.from(buf.toString('hex'), 'hex')` recovers the bytes. -/
theorem bytesOfHex_hexOfBytes (bs : List Nat) (hb : ∀ b ∈ bs, b < 256) :
    bytesOfHex (hexOfBytes bs) = bs :=
  hex_roundtrip bs hb

/-- The hex string of a nonempty byte list is not the empty string. -/
theorem hexOfBytes_ne_empty (b : Nat) (rest : List Nat) :
    hexOfBytes (b :: rest) ≠ "" := by
  intro h
  have : (hexOfBytes (b :: rest)).data = ("" : String).data := by rw [h]
  simp [hexOfBytes, hexOfBytesChars] at this

/-! ## Split lemmas -/

/-- The colon split never returns an empty segment list. -/
theorem splitOnColon_ne_nil (l : List Char) : splitOnColon l ≠ [] := by
  cases l with
  | nil => simp [splitOnColon]
  | cons c rest =>
      simp only [splitOnColon]
      by_cases h : c = ':'
      · simp [h]
      · simp only [h, if_false]
        cases splitOnColon rest with
        | nil => simp
        | cons seg segs => simp

/-- A colon-free list splits into the single segment it is. -/
theorem splitOnColon_no_colon (l : List Char) (h : ':' ∉ l) : splitOnColon l = [l] := by
  induction l with
  | nil => simp [splitOnColon]
  | cons c rest ih =>
      have hc : c ≠ ':' := fun hc => h (by simp [hc])
      simp only [splitOnColon, hc, if_false]
      rw [ih (fun hm => h (by simp [hm]))]

/-- Splitting a list with a colon-free prefix peels off that prefix as the
first segment. -/
theorem splitOnColon_append (xs ys : List Char) (h : ':' ∉ xs) :
    splitOnColon (xs ++ ':' :: ys) = xs :: splitOnColon ys := by
  induction xs with
  | nil => simp [splitOnColon]
  | cons c rest ih =>
      have hc : c ≠ ':' := fun hc => h (by simp [hc])
      simp only [List.cons_append, splitOnColon, hc, if_false, List.append_eq]
      rw [ih (fun hm => h (by simp [hm]))]

/-- The first segment of the colon split is the longest colon-free prefix. -/
theorem splitOnColon_head (l : List Char) :
    ∃ segs, splitOnColon l = l.takeWhile (fun c => c != ':') :: segs := by
  induction l with
  | nil => exact ⟨[], by simp [splitOnColon]⟩
  | cons c rest ih =>
      by_cases h : c = ':'
      · subst h
        exact ⟨splitOnColon rest, by simp [splitOnColon, List.takeWhile]⟩
      · obtain ⟨segs, hsegs⟩ := ih
        refine ⟨segs, ?_⟩
        simp only [splitOnColon, h, if_false, hsegs, List.takeWhile_cons]
        simp [h]

/-! ## CBC lemmas -/

/-- Bytewise xor of equal-length lists cancels on the left. -/
theorem listXor_cancel (xs ys : List Nat) (h : xs.length = ys.length) :
    listXor xs (listXor xs ys) = ys := by
  induction xs generalizing ys with
  | nil => cases ys with
      | nil => rfl
      | cons y t => simp at h
  | cons x xt ih =>
      cases ys with
      | nil => simp at h
      | cons y yt =>
          simp only [listXor, List.zipWith_cons_cons] at *
          congr 1
          · exact Nat.xor_cancel_left x y
          · exact ih yt (by simpa using h)

/-- Length of a bytewise xor. -/
theorem listXor_length (xs ys : List Nat) :
    (listXor xs ys).length = min xs.length ys.length := by
  simp [listXor]

/-- `chunk16` of the empty list. -/
theorem chunk16_nil : chunk16 [] = [] := by
  rw [chunk16]
  simp

/-- `chunk16` of a nonempty list peels off the first 16 bytes. -/
theorem chunk16_cons (l : List Nat) (h : l ≠ []) :
    chunk16 l = l.take 16 :: chunk16 (l.drop 16) := by
  rw [chunk16]
  simp [h]

/-- Chunking a block-aligned list yields 16-byte chunks. -/
theorem chunk16_mem_length (l : List Nat) (hl : l.length % 16 = 0) :
    ∀ blk ∈ chunk16 l, blk.length = 16 := by
  induction l using chunk16.induct with
  | case1 => simp [chunk16_nil]
  | case2 l hnil _ ih =>
      have hlen : 16 ≤ l.length := by
        rcases Nat.eq_zero_or_pos l.length with h0 | h0
        · exact absurd (List.length_eq_zero.mp h0) hnil
        · omega
      intro blk hblk
      rw [chunk16_cons l hnil] at hblk
      rcases List.mem_cons.mp hblk with h | h
      · subst h; simp [List.length_take]; omega
      · exact ih (by simp [List.length_drop]; omega) blk h

/-- Chunking then flattening a block-aligned list is the identity. -/
theorem chunk16_flatten (l : List Nat) (hl : l.length % 16 = 0) :
    (chunk16 l).flatten = l := by
  induction l using chunk16.induct with
  | case1 => simp [chunk16_nil]
  | case2 l hnil _ ih =>
      have hlen : 16 ≤ l.length := by
        rcases Nat.eq_zero_or_pos l.length with h0 | h0
        · exact absurd (List.length_eq_zero.mp h0) hnil
        · omega
      rw [chunk16_cons l hnil]
      simp only [List.flatten_cons]
      rw [ih (by simp [List.length_drop]; omega)]
      exact List.take_append_drop 16 l

/-- Flattening a list of 16-byte blocks then re-chunking recovers the
blocks. -/
theorem chunk16_flatten_blocks (bls : List (List Nat)) (h : ∀ b ∈ bls, b.length = 16) :
    chunk16 bls.flatten = bls := by
  induction bls with
  | nil => simp [chunk16_nil]
  | cons b rest ih =>
      have hb : b.length = 16 := h b (by simp)
      have hbne : b ≠ [] := by
        intro hcontra
        rw [hcontra] at hb
        simp at hb
      have hne : b ++ rest.flatten ≠ [] := by
        intro hcontra
        exact hbne (List.append_eq_nil.mp hcontra).1
      simp only [List.flatten_cons]
      rw [chunk16_cons _ hne, List.take_left' hb, List.drop_left' hb,
        ih (fun x hx => h x (by simp [hx]))]

/-- Flattening a list of 16-byte blocks multiplies the count by 16. -/
theorem flatten_blocks_length (bls : List (List Nat)) (h : ∀ b ∈ bls, b.length = 16) :
    bls.flatten.length = 16 * bls.length := by
  induction bls with
  | nil => simp
  | cons b rest ih =>
      simp only [List.flatten_cons, List.length_append, List.length_cons,
        h b (by simp), ih (fun x hx => h x (by simp [hx]))]
      ring

/-- The CBC encryption chain produces one ciphertext block per plaintext
block. -/
theorem cbcEncChain_length (bc : BlockCipher) (k prev : List Nat) (bls : List (List Nat)) :
    (cbcEncChain bc k prev bls).length = bls.length := by
  induction bls generalizing prev with
  | nil => rfl
  | cons b rest ih => simp [cbcEncChain, ih]

/-- Under the block-length contract, every CBC ciphertext block is 16 bytes
long. -/
theorem cbcEncChain_mem_length (bc : BlockCipher) (k : List Nat)
    (hlen : ∀ blk, blk.length = 16 → (bc.enc k blk).length = 16)
    (prev : List Nat) (hprev : prev.length = 16)
    (bls : List (List Nat)) (hbls : ∀ b ∈ bls, b.length = 16) :
    ∀ c ∈ cbcEncChain bc k prev bls, c.length = 16 := by
  induction bls generalizing prev with
  | nil => simp [cbcEncChain]
  | cons b rest ih =>
      have hb : b.length = 16 := hbls b (by simp)
      have hxor : (listXor prev b).length = 16 := by
        rw [listXor_length, hprev, hb]; simp
      have hc : (bc.enc k (listXor prev b)).length = 16 := hlen _ hxor
      intro c hc'
      simp only [cbcEncChain, List.mem_cons] at hc'
      rcases hc' with h | h
      · subst h; exact hc
      · exact ih _ hc (fun x hx => hbls x (by simp [hx])) c h

/-- Under the block-cipher round-trip contract, the CBC decryption chain
inverts the CBC encryption chain. -/
theorem cbcDecChain_cbcEncChain (bc : BlockCipher) (k : List Nat)
    (hdec : ∀ blk, blk.length = 16 → bc.dec k (bc.enc k blk) = blk)
    (hlen : ∀ blk, blk.length = 16 → (bc.enc k blk).length = 16)
    (prev : List Nat) (hprev : prev.length = 16)
    (bls : List (List Nat)) (hbls : ∀ b ∈ bls, b.length = 16) :
    cbcDecChain bc k prev (cbcEncChain bc k prev bls) = bls := by
  induction bls generalizing prev with
  | nil => rfl
  | cons b rest ih =>
      have hb : b.length = 16 := hbls b (by simp)
      have hxor : (listXor prev b).length = 16 := by
        rw [listXor_length, hprev, hb]; simp
      simp only [cbcEncChain, cbcDecChain]
      rw [hdec _ hxor, listXor_cancel prev b (by omega)]
      congr 1
      exact ih _ (hlen _ hxor) (fun x hx => hbls x (by simp [hx]))

/-! ## PKCS#7 lemmas -/

/-- The padded buffer is nonempty and block-aligned. -/
theorem pkcs7pad_length (bs : List Nat) :
    (pkcs7pad bs).length = bs.length + (16 - bs.length % 16) := by
  simp [pkcs7pad]

/-- Unpadding inverts padding. -/
theorem pkcs7unpad_pkcs7pad (bs : List Nat) : pkcs7unpad (pkcs7pad bs) = .ok bs := by
  set p := 16 - bs.length % 16 with hp
  have hp1 : 1 ≤ p := by omega
  have hp16 : p ≤ 16 := by omega
  have hlast : (pkcs7pad bs).getLast? = some p := by
    unfold pkcs7pad
    rw [← hp]
    obtain ⟨q, hq⟩ : ∃ q, p = q + 1 := ⟨p - 1, by omega⟩
    rw [hq, List.replicate_succ', ← List.append_assoc, List.getLast?_concat]
  have hlen : (pkcs7pad bs).length = bs.length + p := by
    rw [pkcs7pad_length, hp]
  simp only [pkcs7unpad, hlast]
  have hdrop : (pkcs7pad bs).drop ((pkcs7pad bs).length - p) = List.replicate p p := by
    rw [hlen]
    have : bs.length + p - p = bs.length := by omega
    rw [this]
    unfold pkcs7pad
    rw [← hp, List.drop_left' rfl]
  have htake : (pkcs7pad bs).take ((pkcs7pad bs).length - p) = bs := by
    rw [hlen]
    have : bs.length + p - p = bs.length := by omega
    rw [this]
    unfold pkcs7pad
    rw [← hp, List.take_left' rfl]
  rw [if_pos]
  · rw [htake]
  · refine ⟨hp1, hp16, ?_⟩
    rw [hdrop]
    intro x hx
    exact List.eq_of_mem_replicate hx

/-- Whole-buffer AES-256-CBC decryption inverts whole-buffer encryption, for
any abstract block cipher satisfying the 16-byte block contract. -/
theorem aes256cbc_roundtrip (bc : BlockCipher) (k iv input : List Nat)
    (hiv : iv.length = 16)
    (hdec : ∀ blk, blk.length = 16 → bc.dec k (bc.enc k blk) = blk)
    (hlen : ∀ blk, blk.length = 16 → (bc.enc k blk).length = 16) :
    aes256cbc_decrypt bc k iv (aes256cbc_encrypt bc k iv input) = .ok input := by
  have hpadmod : (pkcs7pad input).length % 16 = 0 := by
    rw [pkcs7pad_length]
    omega
  have hpadpos : 0 < (pkcs7pad input).length := by
    rw [pkcs7pad_length]
    omega
  have hblocks : ∀ blk ∈ chunk16 (pkcs7pad input), blk.length = 16 :=
    chunk16_mem_length _ hpadmod
  have hcblocks : ∀ c ∈ cbcEncChain bc k iv (chunk16 (pkcs7pad input)), c.length = 16 :=
    cbcEncChain_mem_length bc k hlen iv hiv _ hblocks
  have hchunkpos : chunk16 (pkcs7pad input) ≠ [] := by
    rw [chunk16_cons _ (by intro h; rw [h] at hpadpos; simp at hpadpos)]
    simp
  have hflatlen : (cbcEncChain bc k iv (chunk16 (pkcs7pad input))).flatten.length =
      16 * (chunk16 (pkcs7pad input)).length := by
    rw [flatten_blocks_length _ hcblocks, cbcEncChain_length]
  have hn : 0 < (chunk16 (pkcs7pad input)).length := by
    cases h : chunk16 (pkcs7pad input) with
    | nil => exact absurd h hchunkpos
    | cons a t => simp
  unfold aes256cbc_encrypt aes256cbc_decrypt
  rw [if_pos (by constructor <;> [skip; skip] <;> rw [hflatlen] <;> omega)]
  rw [chunk16_flatten_blocks _ hcblocks,
    cbcDecChain_cbcEncChain bc k hdec hlen iv hiv _ hblocks,
    chunk16_flatten _ hpadmod, pkcs7unpad_pkcs7pad]

/-! ## Claim theorems -/

/-- C1: for every serializable object `o` and valid key pairs
`(priv_s, pub_s)` and `(priv_o, pub_o)`, assuming the ECDH-AEAD primitive
satisfies its round-trip contract (and returns byte buffers),
`decrypt_object(encrypt_object(o, priv_s, pub_o), pub_s, priv_o) = o`. -/
theorem encrypt_decrypt_object_roundtrip {Obj : Type}
    (prim : EcdhAead) (stringify : Obj → String) (jsonParse : String → Except JsError Obj)
    (utf8enc : String → List Nat) (utf8dec : List Nat → String)
    (o : Obj) (priv_s pub_s priv_o pub_o : Nat) (nonceBytes : List Nat)
    (hjson : jsonParse (stringify o) = .ok o)
    (hutf8 : utf8dec (utf8enc (stringify o)) = stringify o)
    (hnonce : ∀ b ∈ nonceBytes, b < 256)
    (hplain : ∀ b ∈ utf8enc (stringify o), b < 256)
    (hcipherbytes : ∀ nonce msg, (∀ b ∈ msg, b < 256) →
      ∀ b ∈ prim.encrypt_with_checksum priv_s pub_o nonce msg, b < 256)
    (haead : ∀ nonce msg, prim.decrypt_with_checksum priv_o pub_s nonce
      (prim.encrypt_with_checksum priv_s pub_o nonce msg) = .ok msg) :
    decrypt_object prim jsonParse utf8dec
      (encrypt_object prim stringify utf8enc o priv_s pub_o nonceBytes) pub_s priv_o = .ok o := by
  have hdata : (encrypt_object prim stringify utf8enc o priv_s pub_o nonceBytes).data =
      base64EncodeChars nonceBytes ++ ':' ::
        base64EncodeChars (prim.encrypt_with_checksum priv_s pub_o
          (base64Encode nonceBytes) (utf8enc (stringify o))) := by
    simp [encrypt_object, base64Encode, String.data_append]
  have hparts : decrypt_object_parts
      (encrypt_object prim stringify utf8enc o priv_s pub_o nonceBytes) =
      [base64EncodeChars nonceBytes,
       base64EncodeChars (prim.encrypt_with_checksum priv_s pub_o
         (base64Encode nonceBytes) (utf8enc (stringify o)))] := by
    unfold decrypt_object_parts
    rw [hdata, splitOnColon_append _ _
        (fun hmem => base64EncodeChars_ne_colon nonceBytes hnonce ':' hmem rfl),
      splitOnColon_no_colon _
        (fun hmem => base64EncodeChars_ne_colon _ (hcipherbytes _ _ hplain) ':' hmem rfl)]
    rfl
  unfold decrypt_object
  rw [hparts]
  simp only [base64_roundtrip _ (hcipherbytes _ _ hplain)]
  show (prim.decrypt_with_checksum priv_o pub_s (base64Encode nonceBytes)
      (prim.encrypt_with_checksum priv_s pub_o (base64Encode nonceBytes)
        (utf8enc (stringify o)))).bind (fun plainbuf => jsonParse (utf8dec plainbuf)) = .ok o
  rw [haead]
  simp [Except.bind, hutf8, hjson]

/-- Witness for C1 at a concrete object, serializer and key quadruple. -/
theorem encrypt_decrypt_object_roundtrip_witness :
    decrypt_object echoAead
      (fun s => if s = "x" then .ok () else .error .serializationError)
      (fun _ => "x")
      (encrypt_object echoAead (fun _ => "x") (fun _ => [7]) () 1 4 [1, 2, 3]) 2 3 =
      .ok () :=
  encrypt_decrypt_object_roundtrip echoAead (fun _ => "x")
    (fun s => if s = "x" then .ok () else .error .serializationError)
    (fun _ => [7]) (fun _ => "x") () 1 2 3 4 [1, 2, 3]
    rfl rfl (by decide) (by decide)
    (fun _ _ h => h) (fun _ _ => rfl)

/-- C2: for every byte buffer `buf` (including the empty buffer) and valid key
pairs, assuming the ECDH-AEAD primitive satisfies its round-trip contract and
the platform nonce is the 32 bytes of `random32ByteBuffer`,
`decrypt_buffer(encrypt_buffer(buf, priv_s, pub_o), pub_s, priv_o) = buf`. -/
theorem encrypt_decrypt_buffer_roundtrip (prim : EcdhAead) (buf : List Nat)
    (priv_s pub_s priv_o pub_o : Nat) (nonceBytes : List Nat)
    (hn : nonceBytes.length = 32)
    (haead : ∀ nonce msg, prim.decrypt_with_checksum priv_o pub_s nonce
      (prim.encrypt_with_checksum priv_s pub_o nonce msg) = .ok msg) :
    decrypt_buffer prim (encrypt_buffer prim buf priv_s pub_o nonceBytes)
      pub_s priv_o = .ok buf := by
  have henc : encrypt_buffer prim buf priv_s pub_o nonceBytes =
      (nonceBytes.length % 256) :: (nonceBytes ++
        prim.encrypt_with_checksum priv_s pub_o (base64Encode nonceBytes) buf) := by
    simp [encrypt_buffer]
  have hparts : decrypt_buffer_parts (encrypt_buffer prim buf priv_s pub_o nonceBytes) =
      (nonceBytes, prim.encrypt_with_checksum priv_s pub_o (base64Encode nonceBytes) buf) := by
    unfold decrypt_buffer_parts
    rw [henc]
    simp only [List.headD_cons, List.drop_one, List.tail_cons, hn]
    norm_num
    constructor
    · exact List.take_left' hn
    · exact List.drop_left' hn
  unfold decrypt_buffer
  rw [hparts]
  exact haead _ _

/-- Witness for C2 at the empty buffer (the spec's boundary case) and a
concrete 32-byte nonce. -/
theorem encrypt_decrypt_buffer_roundtrip_witness :
    decrypt_buffer echoAead
      (encrypt_buffer echoAead [] 1 4 (List.replicate 32 0)) 2 3 = .ok [] :=
  encrypt_decrypt_buffer_roundtrip echoAead [] 1 2 3 4 (List.replicate 32 0)
    (by decide) (fun _ _ => rfl)

/-- C5: the buffer envelope has the exact layout
`u8(nonce_len) ++ nonce_bytes ++ ciphertext_bytes`; in particular, for nonce
bytes `01 02` and ciphertext bytes `AA BB CC` the envelope is exactly
`02 01 02 AA BB CC`. -/
theorem encrypt_buffer_wire_format :
    (∀ (prim : EcdhAead) (buf : List Nat) (priv_s pub_o : Nat) (nonceBytes : List Nat),
      encrypt_buffer prim buf priv_s pub_o nonceBytes =
        nonceBytes.length % 256 ::
          (nonceBytes ++
            prim.encrypt_with_checksum priv_s pub_o (base64Encode nonceBytes) buf)) ∧
    encrypt_buffer constAead [5, 6] 0 0 [1, 2] = [2, 1, 2, 170, 187, 204] := by
  constructor
  · intro prim buf priv_s pub_o nonceBytes
    simp [encrypt_buffer]
  · rfl

/-- C10: the binary envelope slicing of `decrypt_buffer` is total and
validates nothing: when the declared nonce length (first byte) exceeds the
number of remaining bytes, the slices still succeed — the nonce is silently
truncated to the whole remainder and the ciphertext comes out empty — and the
result is handed to the ECDH-AEAD primitive rather than raising a parse
error. -/
theorem decrypt_buffer_parse_total (prim : EcdhAead) (buf : List Nat)
    (pub_s priv_o : Nat) (hover : buf.length ≤ buf.headD 0) :
    decrypt_buffer_parts buf = (buf.drop 1, []) ∧
    decrypt_buffer prim buf pub_s priv_o =
      prim.decrypt_with_checksum priv_o pub_s (base64Encode (buf.drop 1)) [] := by
  have hparts : decrypt_buffer_parts buf = (buf.drop 1, []) := by
    show (List.take (buf.headD 0) (List.drop 1 buf), List.drop (1 + buf.headD 0) buf) =
      (buf.drop 1, [])
    have h1 : (List.drop 1 buf).length ≤ buf.headD 0 := by
      rw [List.length_drop]
      omega
    have h2 : buf.length ≤ 1 + buf.headD 0 := by omega
    rw [List.take_of_length_le h1, List.drop_eq_nil_of_le h2]
  refine ⟨hparts, ?_⟩
  unfold decrypt_buffer
  rw [hparts]

/-- Witness for C10 at the buffer `[5, 1]`, whose declared nonce length 5
exceeds the single remaining byte. -/
theorem decrypt_buffer_parse_total_witness :
    decrypt_buffer_parts [5, 1] = ([1], []) ∧
    decrypt_buffer constAead [5, 1] 2 3 =
      constAead.decrypt_with_checksum 3 2 (base64Encode [1]) [] :=
  decrypt_buffer_parse_total constAead [5, 1] 2 3 (by decide)

/-- C6 counterexample: on the envelope string `a:b:c`, whose remainder after
the first `:` is `b:c`, the split of `decrypt_object` yields `b` as the
ciphertext segment — not the entire remainder `b:c` — because
`str.split(':', 2)` keeps only the first two segments of the full split. -/
theorem decrypt_object_split_counterexample :
    decrypt_object_parts "a:b:c" = [['a'], ['b']] ∧
    (['b'] : List Char) ≠ ['b', ':', 'c'] := by
  constructor
  · decide
  · decide

/-- C6 amended: `decrypt_object` splits with `str.split(':', 2)`; the nonce
segment is everything before the first `:` and the ciphertext segment is the
part of the remainder strictly before the next `:` (the whole remainder only
when it contains no further `:`); any content after a second `:` is
discarded. -/
theorem decrypt_object_split_amended (xs ys : List Char) (hxs : ':' ∉ xs) :
    decrypt_object_parts (String.mk (xs ++ ':' :: ys)) =
      [xs, ys.takeWhile (fun c => c != ':')] := by
  unfold decrypt_object_parts
  show (splitOnColon (xs ++ ':' :: ys)).take 2 = _
  rw [splitOnColon_append xs ys hxs]
  obtain ⟨segs, hsegs⟩ := splitOnColon_head ys
  rw [hsegs]
  rfl

/-- Witness for the amended C6 at the envelope `a:b:c`. -/
theorem decrypt_object_split_amended_witness :
    decrypt_object_parts (String.mk (['a'] ++ ':' :: ['b', ':', 'c'])) = [['a'], ['b']] :=
  decrypt_object_split_amended ['a'] ['b', ':', 'c'] (by decide)

/-- C3 (divergence witness): the no-encryption path constructs a
`stream.PassThrough` for both directions, but `crypto_content_transform`
invokes `transform.update` / `transform.final`, methods a `PassThrough`
stream does not have — so `encrypt_content` and `decrypt_content` under the
no-encryption sentinel throw a `TypeError` instead of passing the bytes
through unchanged. -/
theorem noencrypt_content_transform_typeError :
    make_content_cipher_stream make_content_key_noencrypt = .ok .passThrough ∧
    make_content_decipher_stream make_content_key_noencrypt = .ok .passThrough ∧
    encrypt_content idBlockCipher [170] make_content_key_noencrypt = .error .typeError ∧
    decrypt_content idBlockCipher [170] make_content_key_noencrypt = .error .typeError ∧
    encrypt_content idBlockCipher [] make_content_key_noencrypt = .error .typeError :=
  ⟨rfl, rfl, rfl, rfl, rfl⟩

/-- C9: `make_content_key_noencrypt` returns the sentinel algorithm with
`key` and `iv` both null; `make_content_key` returns the default real
algorithm with `key` and `iv` present as hex strings decoding to exactly 32
and 16 bytes respectively, given the platform's `randomBytes(32)` /
`randomBytes(16)` contract. -/
theorem content_key_constructor_invariants (randKey randIv : List Nat)
    (hk : randKey.length = 32) (hiv : randIv.length = 16)
    (hkb : ∀ b ∈ randKey, b < 256) (hivb : ∀ b ∈ randIv, b < 256) :
    make_content_key_noencrypt.algo = CONTENT_CIPHER_ALGORITHM_NOENCRYPT ∧
    make_content_key_noencrypt.key = none ∧
    make_content_key_noencrypt.iv = none ∧
    (make_content_key randKey randIv).algo = CONTENT_CIPHER_ALGORITHM ∧
    (make_content_key randKey randIv).key = some (hexOfBytes randKey) ∧
    (make_content_key randKey randIv).iv = some (hexOfBytes randIv) ∧
    (bytesOfHex (hexOfBytes randKey)).length = 32 ∧
    (bytesOfHex (hexOfBytes randIv)).length = 16 := by
  refine ⟨rfl, rfl, rfl, rfl, rfl, rfl, ?_, ?_⟩
  · rw [bytesOfHex_hexOfBytes _ hkb, hk]
  · rw [bytesOfHex_hexOfBytes _ hivb, hiv]

/-- Witness for C9 at concrete 32-byte and 16-byte random inputs. -/
theorem content_key_constructor_invariants_witness :
    make_content_key_noencrypt.algo = CONTENT_CIPHER_ALGORITHM_NOENCRYPT ∧
    make_content_key_noencrypt.key = none ∧
    make_content_key_noencrypt.iv = none ∧
    (make_content_key (List.replicate 32 0) (List.replicate 16 1)).algo =
      CONTENT_CIPHER_ALGORITHM ∧
    (make_content_key (List.replicate 32 0) (List.replicate 16 1)).key =
      some (hexOfBytes (List.replicate 32 0)) ∧
    (make_content_key (List.replicate 32 0) (List.replicate 16 1)).iv =
      some (hexOfBytes (List.replicate 16 1)) ∧
    (bytesOfHex (hexOfBytes (List.replicate 32 0))).length = 32 ∧
    (bytesOfHex (hexOfBytes (List.replicate 16 1))).length = 16 :=
  content_key_constructor_invariants (List.replicate 32 0) (List.replicate 16 1)
    (by decide) (by decide) (by decide) (by decide)

/-- C8: for a content key naming the real algorithm whose key — or whose
present, nonempty IV — decodes to the wrong byte length,
`make_content_cipher_stream` and `make_content_decipher_stream` fail with the
construction-time `KeyFormatError`, before any input bytes are processed. -/
theorem bad_key_iv_size_keyFormatError (ck : ContentKey) (khex : String)
    (halgo : ck.algo = CONTENT_CIPHER_ALGORITHM) (hkey : ck.key = some khex)
    (hbad : (bytesOfHex khex).length ≠ 32 ∨
      ∃ ivhex, ck.iv = some ivhex ∧ ivhex ≠ "" ∧ (bytesOfHex ivhex).length ≠ 16) :
    make_content_cipher_stream ck = .error .keyFormatError ∧
    make_content_decipher_stream ck = .error .keyFormatError := by
  have hne : ¬ ck.algo = CONTENT_CIPHER_ALGORITHM_NOENCRYPT := by
    rw [halgo]
    decide
  have h1 : make_content_cipher_stream ck =
      createCipheriv ck.algo (bytesOfHex khex) (ivArgOf ck.iv) := by
    unfold make_content_cipher_stream
    rw [if_neg hne, hkey]
  have h2 : make_content_decipher_stream ck =
      createDecipheriv ck.algo (bytesOfHex khex) (ivArgOf ck.iv) := by
    unfold make_content_decipher_stream
    rw [if_neg hne, hkey]
  have halgo' : ck.algo = "aes-256-cbc" := halgo
  rcases hbad with hklen | ⟨ivhex, hiv, hivne, hivlen⟩
  · constructor
    · rw [h1, halgo']
      unfold createCipheriv
      rw [if_pos rfl, if_pos hklen]
    · rw [h2, halgo']
      unfold createDecipheriv
      rw [if_pos rfl, if_pos hklen]
  · have hivarg : ivArgOf ck.iv = some (bytesOfHex ivhex) := by
      rw [hiv]
      unfold ivArgOf
      simp [hivne]
    by_cases hklen : (bytesOfHex khex).length ≠ 32
    · constructor
      · rw [h1, halgo']
        unfold createCipheriv
        rw [if_pos rfl, if_pos hklen]
      · rw [h2, halgo']
        unfold createDecipheriv
        rw [if_pos rfl, if_pos hklen]
    · constructor
      · rw [h1, halgo']
        unfold createCipheriv
        rw [if_pos rfl, if_neg hklen, hivarg]
        simp [hivlen]
      · rw [h2, halgo']
        unfold createDecipheriv
        rw [if_pos rfl, if_neg hklen, hivarg]
        simp [hivlen]

/-- Witness for C8: the real algorithm with a 1-byte key. -/
theorem bad_key_iv_size_keyFormatError_witness :
    make_content_cipher_stream
      { algo := "aes-256-cbc", key := some "00", iv := some "00112233445566778899aabbccddeeff" } =
      .error .keyFormatError ∧
    make_content_decipher_stream
      { algo := "aes-256-cbc", key := some "00", iv := some "00112233445566778899aabbccddeeff" } =
      .error .keyFormatError :=
  bad_key_iv_size_keyFormatError
    { algo := "aes-256-cbc", key := some "00", iv := some "00112233445566778899aabbccddeeff" }
    "00" rfl rfl (Or.inl (by decide))

/-- C4: for every byte buffer `b` and every content key freshly produced by
`make_content_key` (real algorithm, well-sized random key and IV),
`decrypt_content(encrypt_content(b, k), k) = b`, the cipher being applied
over the whole buffer with finalized block padding; assumes only the
16-byte-block contract of the external AES-256 block permutation. -/
theorem content_roundtrip_real_algorithm (bc : BlockCipher) (b randKey randIv : List Nat)
    (hk : randKey.length = 32) (hiv : randIv.length = 16)
    (hkb : ∀ x ∈ randKey, x < 256) (hivb : ∀ x ∈ randIv, x < 256)
    (hdec : ∀ key blk, blk.length = 16 → bc.dec key (bc.enc key blk) = blk)
    (hlen : ∀ key blk, blk.length = 16 → (bc.enc key blk).length = 16) :
    ∃ c, encrypt_content bc b (make_content_key randKey randIv) = .ok c ∧
      decrypt_content bc c (make_content_key randKey randIv) = .ok b := by
  have hne : ¬ (make_content_key randKey randIv).algo = CONTENT_CIPHER_ALGORITHM_NOENCRYPT := by
    show ¬ CONTENT_CIPHER_ALGORITHM = CONTENT_CIPHER_ALGORITHM_NOENCRYPT
    decide
  have hkeyhex : (make_content_key randKey randIv).key = some (hexOfBytes randKey) := rfl
  have hivhex : (make_content_key randKey randIv).iv = some (hexOfBytes randIv) := rfl
  have hivne : hexOfBytes randIv ≠ "" := by
    cases heq : randIv with
    | nil => rw [heq] at hiv; simp at hiv
    | cons x t => exact hexOfBytes_ne_empty x t
  have hivarg : ivArgOf (make_content_key randKey randIv).iv = some randIv := by
    rw [hivhex]
    unfold ivArgOf
    simp only [hivne, if_false, if_neg hivne]
    rw [bytesOfHex_hexOfBytes _ hivb]
  have hkdec : bytesOfHex (hexOfBytes randKey) = randKey := bytesOfHex_hexOfBytes _ hkb
  have hcipher : make_content_cipher_stream (make_content_key randKey randIv) =
      .ok (.cipheriv randKey randIv) := by
    unfold make_content_cipher_stream
    rw [if_neg hne, hkeyhex]
    show createCipheriv "aes-256-cbc" (bytesOfHex (hexOfBytes randKey))
      (ivArgOf (make_content_key randKey randIv).iv) = _
    rw [hkdec, hivarg]
    unfold createCipheriv
    rw [if_pos rfl, if_neg (by rw [hk]; omega)]
    simp [hiv]
  have hdecipher : make_content_decipher_stream (make_content_key randKey randIv) =
      .ok (.decipheriv randKey randIv) := by
    unfold make_content_decipher_stream
    rw [if_neg hne, hkeyhex]
    show createDecipheriv "aes-256-cbc" (bytesOfHex (hexOfBytes randKey))
      (ivArgOf (make_content_key randKey randIv).iv) = _
    rw [hkdec, hivarg]
    unfold createDecipheriv
    rw [if_pos rfl, if_neg (by rw [hk]; omega)]
    simp [hiv]
  refine ⟨aes256cbc_encrypt bc randKey randIv b, ?_, ?_⟩
  · unfold encrypt_content
    rw [hcipher]
    rfl
  · unfold decrypt_content
    rw [hdecipher]
    show aes256cbc_decrypt bc randKey randIv (aes256cbc_encrypt bc randKey randIv b) = .ok b
    exact aes256cbc_roundtrip bc randKey randIv b hiv (hdec randKey) (hlen randKey)

/-- Witness for C4 with the identity block cipher, a concrete buffer and
concrete random key and IV bytes. -/
theorem content_roundtrip_real_algorithm_witness :
    ∃ c, encrypt_content idBlockCipher [1, 2, 3]
        (make_content_key (List.replicate 32 0) (List.replicate 16 1)) = .ok c ∧
      decrypt_content idBlockCipher c
        (make_content_key (List.replicate 32 0) (List.replicate 16 1)) = .ok [1, 2, 3] :=
  content_roundtrip_real_algorithm idBlockCipher [1, 2, 3]
    (List.replicate 32 0) (List.replicate 16 1)
    (by decide) (by decide) (by decide) (by decide)
    (fun _ _ _ => rfl) (fun _ _ h => h)

/-- C7: `decrypt_object` and `decrypt_buffer` surface every failure to the
caller and never fabricate a result: a missing `:` delimiter makes
`decrypt_object` throw before the primitive is reached; any error of the
ECDH-AEAD primitive (its integrity check, which covers tampered ciphertexts,
wrong key pairs and nonsense produced by lenient base64 decoding or by a
malformed binary nonce-length prefix) propagates unchanged through both
functions; and a successful result can only arise from a successful primitive
call on the parsed segments followed by a successful parse of the
plaintext. -/
theorem decrypt_error_propagation {Obj : Type} (prim : EcdhAead)
    (jsonParse : String → Except JsError Obj) (utf8dec : List Nat → String)
    (str : String) (buf : List Nat) (pub_s priv_o : Nat) :
    (':' ∉ str.data →
      decrypt_object prim jsonParse utf8dec str pub_s priv_o = .error .typeError) ∧
    (∀ p0 p1 rest e, decrypt_object_parts str = p0 :: p1 :: rest →
      prim.decrypt_with_checksum priv_o pub_s (String.mk p0) (base64DecodeChars p1) =
        .error e →
      decrypt_object prim jsonParse utf8dec str pub_s priv_o = .error e) ∧
    (∀ v, decrypt_object prim jsonParse utf8dec str pub_s priv_o = .ok v →
      ∃ p0 p1 rest pb, decrypt_object_parts str = p0 :: p1 :: rest ∧
        prim.decrypt_with_checksum priv_o pub_s (String.mk p0) (base64DecodeChars p1) =
          .ok pb ∧
        jsonParse (utf8dec pb) = .ok v) ∧
    (∀ e, prim.decrypt_with_checksum priv_o pub_s
        (base64Encode (decrypt_buffer_parts buf).1) (decrypt_buffer_parts buf).2 =
        .error e →
      decrypt_buffer prim buf pub_s priv_o = .error e) ∧
    (∀ v, decrypt_buffer prim buf pub_s priv_o = .ok v →
      prim.decrypt_with_checksum priv_o pub_s
        (base64Encode (decrypt_buffer_parts buf).1) (decrypt_buffer_parts buf).2 =
        .ok v) := by
  refine ⟨?_, ?_, ?_, ?_, ?_⟩
  · intro hnc
    unfold decrypt_object decrypt_object_parts
    rw [splitOnColon_no_colon _ hnc]
    rfl
  · intro p0 p1 rest e hparts hprim
    unfold decrypt_object
    rw [hparts]
    simp only [hprim, Except.bind]
    rfl
  · intro v hok
    unfold decrypt_object at hok
    cases hparts : decrypt_object_parts str with
    | nil => rw [hparts] at hok; exact absurd hok (by simp)
    | cons p0 tail =>
        cases tail with
        | nil => rw [hparts] at hok; exact absurd hok (by simp)
        | cons p1 rest =>
            rw [hparts] at hok
            have hok' : (prim.decrypt_with_checksum priv_o pub_s (String.mk p0)
                (base64DecodeChars p1)).bind
                  (fun plainbuf => jsonParse (utf8dec plainbuf)) = .ok v := hok
            cases hprim : prim.decrypt_with_checksum priv_o pub_s (String.mk p0)
                (base64DecodeChars p1) with
            | error e =>
                rw [hprim] at hok'
                simp [Except.bind] at hok'
            | ok pb =>
                rw [hprim] at hok'
                exact ⟨p0, p1, rest, pb, rfl, hprim, by simpa [Except.bind] using hok'⟩
  · intro e hprim
    unfold decrypt_buffer
    exact hprim
  · intro v hok
    unfold decrypt_buffer at hok
    exact hok

/-- Witness for C7: a delimiter-free text envelope throws, and a primitive
integrity failure on the binary envelope propagates. -/
theorem decrypt_error_propagation_witness :
    decrypt_object constAead (fun _ => (.ok () : Except JsError Unit)) (fun _ => "") "ab" 2 3 =
      .error .typeError ∧
    decrypt_buffer constAead [0] 2 3 = .error .decryptionError :=
  ⟨(decrypt_error_propagation constAead (fun _ => (.ok () : Except JsError Unit))
      (fun _ => "") "ab" [0] 2 3).1 (by decide),
   (decrypt_error_propagation constAead (fun _ => (.ok () : Except JsError Unit))
      (fun _ => "") "ab" [0] 2 3).2.2.2.1 .decryptionError rfl⟩
